import Mathlib

/-!
Verification of the GradUWate backend core: the requirements-string
constraint parser (`app/db/requirements_parsing.py`), the Neo4j graph
adapter and its bootstrap-driven graph builder
(`app/db/neo4j/graph_adapter.py`, `app/db/bootstrap.py`), the Postgres
constraint rows (`app/db/bootstrap.py`, `app/db/postgres/crud.py`), and
the plan aggregation endpoint (`app/api/v1/endpoints/course.py`).

Python strings are modelled over their character lists; the regular
expressions of the source are rendered as explicit character scanners
with the same backtracking behaviour on the ASCII fragment the data
uses.  All definitions are executable.
-/

set_option maxRecDepth 10000

namespace GradUWate

/-! ## Character-level utilities (ASCII fragment of the Python primitives) -/

/-- Python `\s` on the ASCII range (also what `str.split()` and `str.strip()`
split and strip on). -/
def pyIsSpace (c : Char) : Bool :=
  c == ' ' || c == '\t' || c == '\n' || c == '\r' || c == '\x0b' || c == '\x0c'

/-- The regex class `[A-Z]`. -/
def isUpperAZ (c : Char) : Bool := 'A' ≤ c ∧ c ≤ 'Z'

/-- The regex class `\d` (ASCII digits). -/
def isDigitC (c : Char) : Bool := '0' ≤ c ∧ c ≤ '9'

/-- The regex class `\w` = `[A-Za-z0-9_]`, used for `\b` word boundaries. -/
def isWordChar (c : Char) : Bool :=
  isUpperAZ c || ('a' ≤ c ∧ c ≤ 'z') || isDigitC c || c == '_'

def lowerCh (c : Char) : Char := c.toLower

def ofChars (cs : List Char) : String := String.mk cs

/-- Python `str.strip()`. -/
def stripChars (cs : List Char) : List Char :=
  ((cs.dropWhile pyIsSpace).reverse.dropWhile pyIsSpace).reverse

/-- Python `str.strip()` on strings. -/
def pyStrip (s : String) : String := ofChars (stripChars s.data)

/-- Python `str.lower()` (ASCII fragment). -/
def lowerStr (s : String) : String := ofChars (s.data.map lowerCh)

/-- Python `str.upper()` (ASCII fragment). -/
def pyUpper (s : String) : String := ofChars (s.data.map Char.toUpper)

/-- Python `str.split()` (split on whitespace runs, no empty tokens):
accumulator-based scanner over the characters. -/
def wsTokensAux (cur : List Char) : List Char → List String
  | [] => if cur.isEmpty then [] else [ofChars cur.reverse]
  | c :: cs =>
    if pyIsSpace c then
      if cur.isEmpty then wsTokensAux [] cs
      else ofChars cur.reverse :: wsTokensAux [] cs
    else wsTokensAux (c :: cur) cs

/-- Python `str.split()`. -/
def pySplitWs (s : String) : List String := wsTokensAux [] s.data

/-- Python `" ".join(...)`. -/
def joinSp (parts : List String) : String := String.intercalate " " parts

/-! ## The course-code tokenizer

`COURSE_CODE_RE = \b([A-Z]{2,4})\s*(\d{2,3}[A-Z]?)\b` with `findall`
semantics (leftmost, non-overlapping).  The scanner below is the
backtracking behaviour of that pattern made explicit:

* `[A-Z]{2,4}` is greedy, but taking fewer letters than the full
  uppercase run always fails (the next char would be an uppercase
  letter, matching neither `\s` nor `\d`), so the run must be taken
  whole and must have length 2..4;
* `\s*` must be the maximal whitespace run (a shorter take leaves a
  whitespace char where a digit is required);
* `\d{2,3}` likewise must be the whole digit run, of length 2..3 (a
  longer run fails the trailing `\b` for every backtracking choice);
* the optional `[A-Z]` is taken when present, provided the character
  after it satisfies `\b`; otherwise the pattern can still match without
  it only if the character after the digits satisfies `\b`.
-/

/-- One match attempt of `COURSE_CODE_RE` at the current position.
`prevIsWord` tells whether the character before the position is a word
character (for the leading `\b`).  Returns the two capture groups and
the remainder of the input after the match. -/
def matchCodeAt (prevIsWord : Bool) (cs : List Char) : Option (String × String × List Char) :=
  if prevIsWord then none
  else
    let letters := cs.takeWhile isUpperAZ
    if letters.length < 2 || 4 < letters.length then none
    else
      let rest1 := (cs.drop letters.length).dropWhile pyIsSpace
      let digits := rest1.takeWhile isDigitC
      if digits.length < 2 || 3 < digits.length then none
      else
        match rest1.drop digits.length with
        | [] => some (ofChars letters, ofChars digits, [])
        | d :: rest3 =>
          if isUpperAZ d then
            -- optional trailing [A-Z]: keep it if the next char satisfies \b,
            -- otherwise the variant without it also fails \b (d is a word char)
            if rest3.head?.all (fun c => !isWordChar c) then
              some (ofChars letters, ofChars (digits ++ [d]), rest3)
            else none
          else if isWordChar d then none
          else some (ofChars letters, ofChars digits, d :: rest3)

/-- `findall` scan: try a match at every position, resume after each
match.  Fuel bounds the recursion (every step consumes at least one
character). -/
def scanCodesAux : Nat → Bool → List Char → List (String × String)
  | 0, _, _ => []
  | _ + 1, _, [] => []
  | fuel + 1, prevW, c :: rest =>
    match matchCodeAt prevW (c :: rest) with
    | some (a, b, remaining) => (a, b) :: scanCodesAux fuel true remaining
    | none => scanCodesAux fuel (isWordChar c) rest

/-- `_codes_in`: all course codes in a string, formatted `f"{a} {b}"`. -/
def codesIn (s : String) : List String :=
  (scanCodesAux (s.data.length + 1) false s.data).map (fun p => p.1 ++ " " ++ p.2)

/-! ## Python `sorted(set(...))` -/

/-- Keep the first occurrence of each element not already seen (the set
part of `sorted(set(xs))`; which representative is kept is irrelevant
once sorted). -/
def dedupSeen (seen : List String) : List String → List String
  | [] => []
  | x :: xs => if x ∈ seen then dedupSeen seen xs else x :: dedupSeen (x :: seen) xs

/-- Keep the first occurrence of each element. -/
def dedupKeepFirst (xs : List String) : List String := dedupSeen [] xs

/-- Code-point lexicographic `≤` on character lists — Python's string
comparison. -/
def lexLe : List Char → List Char → Bool
  | [], _ => true
  | _ :: _, [] => false
  | a :: as, b :: bs =>
    if a.toNat < b.toNat then true
    else if a.toNat = b.toNat then lexLe as bs
    else false

/-- Python `<=` on strings. -/
def strLeB (a b : String) : Bool := lexLe a.data b.data

/-- Insert into a ≤-sorted list. -/
def insSorted (x : String) : List String → List String
  | [] => [x]
  | y :: ys => if strLeB x y then x :: y :: ys else y :: insSorted x ys

/-- Ascending sort (Python `sorted` over strings compares by code
points, which is exactly `String` order). -/
def sortStr (l : List String) : List String := l.foldr insSorted []

/-- Python `sorted(set(xs))` for lists of strings. -/
def pySortedSet (xs : List String) : List String := sortStr (dedupKeepFirst xs)

/-! ## `_split_and_top_level` -/

/-- The paren-depth update of `_split_and_top_level` for one token
(`max(0, depth-1)` is `Nat` subtraction). -/
def parenStep (d : Nat) (tok : String) : Nat :=
  if tok = "(" then d + 1 else if tok = ")" then d - 1 else d

/-- The separator test of `_split_and_top_level`: the token (with depth
already updated for it) separates iff depth is zero and it lowercases
to "and". -/
def isAndSep (d : Nat) (tok : String) : Bool := d == 0 && lowerStr tok == "and"

/-- Loop body of `_split_and_top_level`: state is
(emitted parts, current buffer, paren depth). -/
def splitAndLoop (st : List String × List String × Nat) (tok : String) :
    List String × List String × Nat :=
  let (out, buf, depth) := st
  let depth := parenStep depth tok
  if isAndSep depth tok then (out ++ [pyStrip (joinSp buf)], [], depth)
  else (out, buf ++ [tok], depth)

/-- `_split_and_top_level` on an already-tokenized input. -/
def splitAndTokens (toks : List String) : List String :=
  let (out, buf, _) := toks.foldl splitAndLoop ([], [], 0)
  if buf.isEmpty then out else out ++ [pyStrip (joinSp buf)]

/-- `_split_and_top_level`: top-level split on the word "and" while
tracking paren depth per whitespace-delimited token. -/
def splitAndTopLevel (s : String) : List String := splitAndTokens (pySplitWs s)

/-- Finishing step of `_split_and_top_level` (flush a non-empty
buffer). -/
def splitAndFinish (st : List String × List String × Nat) : List String :=
  let (out, buf, _) := st
  if buf.isEmpty then out else out ++ [pyStrip (joinSp buf)]

/-- Reference segmentation (the spec's wording): cut the token list at
exactly the tokens that `isAndSep` marks as top-level "and"
separators, keeping every other token, separator tokens at positive
paren depth included, inside its segment. -/
def segmentsSpec : Nat → List String → List (List String)
  | _, [] => [[]]
  | d, t :: ts =>
    let d1 := parenStep d t
    if isAndSep d1 t then [] :: segmentsSpec d1 ts
    else
      match segmentsSpec d1 ts with
      | [] => [[t]]
      | s :: rest => (t :: s) :: rest

/-- Render reference segments the way the source renders its parts
(join with single spaces, strip, and drop a trailing empty buffer). -/
def finalizeSegs (segs : List (List String)) : List String :=
  let strs := segs.map (fun seg => pyStrip (joinSp seg))
  if segs.getLast? = some [] then strs.dropLast else strs

/-- Prepend pending buffer tokens onto the first segment. -/
def consFirst (buf : List String) : List (List String) → List (List String)
  | [] => [buf]
  | s :: rest => (buf ++ s) :: rest

/-! ## `_split_or_any`

`re.split(r"\s+or\s+|,|/", s, flags=re.I)`: scan left to right; at each
position try `\s+or\s+` (both `\s+` maximal — shorter takes leave a
whitespace char where `o` or a non-space is required), then `,`, then
`/`. -/

/-- Try to match `\s+or\s+` at the current position; return the
remainder after the separator. -/
def matchOrSep (cs : List Char) : Option (List Char) :=
  let ws1 := cs.takeWhile pyIsSpace
  if ws1.isEmpty then none
  else
    match cs.drop ws1.length with
    | o :: r :: rest =>
      if lowerCh o == 'o' && lowerCh r == 'r' then
        let ws2 := rest.takeWhile pyIsSpace
        if ws2.isEmpty then none else some (rest.drop ws2.length)
      else none
    | _ => none

/-- Splitting scan for `_split_or_any` (fuel: every step consumes at
least one character). -/
def orSplitAux : Nat → List Char → List Char → List (List Char)
  | 0, cur, cs => [cur.reverse ++ cs]
  | _ + 1, cur, [] => [cur.reverse]
  | fuel + 1, cur, c :: rest =>
    match matchOrSep (c :: rest) with
    | some rest2 => cur.reverse :: orSplitAux fuel [] rest2
    | none =>
      if c == ',' || c == '/' then cur.reverse :: orSplitAux fuel [] rest
      else orSplitAux fuel (c :: cur) rest

/-- `_split_or_any`: split by " or ", comma, or slash; strip parts and
drop empties. -/
def splitOrAny (s : String) : List String :=
  ((orSplitAux (s.data.length + 1) [] s.data).map (fun cs => pyStrip (ofChars cs))).filter
    (fun p => p ≠ "")

/-! ## Labeled spans

`re.search(r"Prereq:\s*(.*?)(?=Antireq:|Coreq:|$)", txt, flags=re.I|re.S)`
(and symmetrically for `Antireq:`).  The pattern matches at the first
case-insensitive occurrence of the label; `\s*` is maximal; the lazy
group runs to the first position at which a stop label starts (or to
the end of the string; `$` also matches before a final newline, which
is indistinguishable here because the caller strips the group). -/

/-- Case-insensitive "is `pat` (already lowercase) a prefix of `cs`". -/
def isPrefixCI : List Char → List Char → Bool
  | [], _ => true
  | _ :: _, [] => false
  | p :: ps, c :: cs => p == lowerCh c && isPrefixCI ps cs

/-- Find the first case-insensitive occurrence of `pat` (lowercase) and
return the remainder after it. -/
def findAfterCI (pat : List Char) : List Char → Option (List Char)
  | [] => none
  | c :: cs => if isPrefixCI pat (c :: cs) then some ((c :: cs).drop pat.length)
               else findAfterCI pat cs

/-- Take characters until one of the stop labels starts (lazy `.*?`
with a `(?=stop1|stop2|$)` lookahead). -/
def takeUntilStopsCI (stops : List (List Char)) : List Char → List Char
  | [] => []
  | c :: cs =>
    if stops.any (fun p => isPrefixCI p (c :: cs)) then []
    else c :: takeUntilStopsCI stops cs

/-- The labeled span: group(1) of the search, `none` when the label is
absent. -/
def spanAfterLabel (label : String) (stops : List String) (txt : String) : Option String :=
  match findAfterCI label.data txt.data with
  | none => none
  | some rest =>
    some (ofChars (takeUntilStopsCI (stops.map (·.data)) (rest.dropWhile pyIsSpace)))

/-! ## `extract_constraints` -/

/-- Parser output: `{"prereq_groups": ..., "antireqs": ...}`. -/
structure Constraints where
  prereq_groups : List (List String)
  antireqs : List String
deriving DecidableEq, Repr

/-- The prerequisite span (`pre` in the source): group(1) stripped, or
`""` when the label is absent. -/
def preSpanOf (txt : String) : String :=
  match spanAfterLabel "prereq:" ["antireq:", "coreq:"] txt with
  | some g => pyStrip g
  | none => ""

/-- The antirequisite span (`anti` in the source). -/
def antiSpanOf (txt : String) : String :=
  match spanAfterLabel "antireq:" ["prereq:", "coreq:"] txt with
  | some g => pyStrip g
  | none => ""

/-- The codes mined from one top-level AND part: union of the codes of
its OR fragments, falling back to mining the part itself when no OR
fragment produced a code (source lines 54-60). -/
def partCodes (part : String) : List String :=
  let viaOr := (splitOrAny part).flatMap codesIn
  if viaOr = [] then codesIn part else viaOr

/-- `extract_constraints`. -/
def extractConstraints (requirements_description : String) : Constraints :=
  let txt := pyStrip requirements_description
  let pre := preSpanOf txt
  let anti := antiSpanOf txt
  let prereq_groups :=
    if pre = "" then []
    else
      (splitAndTopLevel pre).filterMap (fun part =>
        let codes := pySortedSet (partCodes part)
        if codes = [] then none else some codes)
  { prereq_groups := prereq_groups, antireqs := pySortedSet (codesIn anti) }

/-- All course codes the parser recognizes anywhere in the input: the
codes mined from the AND parts of the prerequisite span plus the codes
of the antirequisite span. -/
def parserCodes (requirements_description : String) : List String :=
  let txt := pyStrip requirements_description
  let pre := preSpanOf txt
  (if pre = "" then [] else (splitAndTopLevel pre).flatMap partCodes) ++
    codesIn (antiSpanOf txt)

/-! ## Graph model (`app/db/neo4j/graph_adapter.py`)

Neo4j `MERGE` deduplicates nodes by `id` and relationships by
`(endpoints, type, properties)`, so the graph state is a node map plus
a finite set of edges. -/

/-- Relationship kinds of the graph. -/
inductive Rel
  | requires
  | unlocks
  | antireq
deriving DecidableEq, Repr

/-- A graph relationship `(startNode)-[:rel {group_id}]->(endNode)`;
`ANTIREQ` edges carry no `group_id` property. -/
structure GEdge where
  src : String
  dst : String
  rel : Rel
  group : Option String
deriving DecidableEq, Repr

/-- Node properties (`code`, `title`, `level`). -/
structure NodeProps where
  code : String
  title : String
  level : Option Int
deriving DecidableEq, Repr

/-- Graph state: association list of nodes keyed by id (first-insertion
order, value overwritten in place) and the set of relationships. -/
structure GraphSt where
  nodes : List (String × NodeProps)
  edges : Finset GEdge
deriving DecidableEq

/-- `MERGE (c:Course {id:$id}) SET c.code/.title/.level`: overwrite the
properties, creating the node if needed. -/
def setNodeProps (ns : List (String × NodeProps)) (id : String) (p : NodeProps) :
    List (String × NodeProps) :=
  if ns.any (fun e => e.1 = id) then ns.map (fun e => if e.1 = id then (id, p) else e)
  else ns ++ [(id, p)]

/-- `MERGE (c:Course {id:$id}) ON CREATE SET c.code = $id, c.title = $id`:
create a placeholder node only when absent. -/
def ensureNode (ns : List (String × NodeProps)) (id : String) : List (String × NodeProps) :=
  if ns.any (fun e => e.1 = id) then ns else ns ++ [(id, ⟨id, id, none⟩)]

/-- The three mutation entry points of the graph adapter that the
bootstrap uses: `upsert_course_node`, `merge_prereq_edge` (one call
creates the `REQUIRES` edge and its `UNLOCKS` inverse in a single
Cypher statement), and `merge_antireq_edge` (one directed `ANTIREQ`
edge). -/
inductive AdapterOp
  | upsertNode (id code title : String) (level : Option Int)
  | mergePrereq (toId fromId groupId : String)
  | mergeAntireq (aId bId : String)
deriving DecidableEq, Repr

/-- Apply one adapter mutation to the graph state. -/
def applyOp (st : GraphSt) : AdapterOp → GraphSt
  | .upsertNode id code title level =>
    { st with nodes := setNodeProps st.nodes id ⟨code, title, level⟩ }
  | .mergePrereq toId fromId g =>
    { nodes := ensureNode (ensureNode st.nodes toId) fromId
      edges := insert ⟨fromId, toId, .unlocks, some g⟩
        (insert ⟨toId, fromId, .requires, some g⟩ st.edges) }
  | .mergeAntireq a b =>
    { nodes := ensureNode (ensureNode st.nodes a) b
      edges := insert ⟨a, b, .antireq, none⟩ st.edges }

/-- The empty database. -/
def initSt : GraphSt := ⟨[], ∅⟩

/-- Run a sequence of adapter mutations from the empty database. -/
def runOps (ops : List AdapterOp) : GraphSt := ops.foldl applyOp initSt

/-! ## Bootstrap (`app/db/bootstrap.py`) -/

/-- A raw scraped record (`subjectCode`, `catalogNumber`, ...). -/
structure RawRecord where
  subjectCode : String
  catalogNumber : String
  title : Option String
  description : Option String
  requirementsDescription : Option String

/-- `_course_pk` applied by `_normalize`: `"CS-135"`. -/
def nid (r : RawRecord) : String := r.subjectCode ++ "-" ++ r.catalogNumber

/-- Normalized `code`: `"CS 135"`. -/
def ncode (r : RawRecord) : String := r.subjectCode ++ " " ++ r.catalogNumber

/-- Normalized `title` (`rec.get("title") or ""`). -/
def ntitle (r : RawRecord) : String := r.title.getD ""

/-- Normalized `requirements` (`rec.get("requirementsDescription") or ""`). -/
def nreq (r : RawRecord) : String := r.requirementsDescription.getD ""

/-- `_id_from_code`: `"CS 135" -> "CS-135"`.  (Python unpacks
`code.split()` into exactly two names and raises otherwise; every code
the parser emits is `"<LETTERS> <DIGITS[LETTER]>"`, so the fallback arm
is unreachable on parser output.) -/
def idFromCode (code : String) : String :=
  match pySplitWs code with
  | [subj, num] => subj ++ "-" ++ num
  | _ => ""

/-- `f"{course_id}#g{n}"`. -/
def gidStr (cid : String) (n : Nat) : String := cid ++ "#g" ++ toString n

/-- The `merge_prereq_edge` calls issued for the prereq groups of one
course (bootstrap lines 82-85); `n` is the 1-based group counter of
`enumerate(..., start=1)`. -/
def prereqOpsFor (cid : String) : Nat → List (List String) → List AdapterOp
  | _, [] => []
  | n, g :: gs =>
    g.map (fun code => .mergePrereq cid (idFromCode code) (gidStr cid n)) ++
      prereqOpsFor cid (n + 1) gs

/-- The `merge_antireq_edge` calls issued for the antireqs of one
course (bootstrap lines 87-90: both directions, together). -/
def antireqOpsFor (cid : String) (codes : List String) : List AdapterOp :=
  codes.flatMap (fun code =>
    [.mergeAntireq cid (idFromCode code), .mergeAntireq (idFromCode code) cid])

/-- All edge mutations for one record (bootstrap lines 78-90). -/
def recordOps (r : RawRecord) : List AdapterOp :=
  let parsed := extractConstraints (nreq r)
  prereqOpsFor (nid r) 1 parsed.prereq_groups ++ antireqOpsFor (nid r) parsed.antireqs

/-- `bootstrap_from_parsed_records`, graph part: node upserts for every
record, then the edge mutations of every record. -/
def bootstrapOps (records : List RawRecord) : List AdapterOp :=
  records.map (fun r => .upsertNode (nid r) (ncode r) (ntitle r) none) ++
    records.flatMap recordOps

/-- The graph produced by bootstrapping a batch of records into an
empty database. -/
def bootstrapGraph (records : List RawRecord) : GraphSt := runOps (bootstrapOps records)

/-- Symmetry of the `ANTIREQ` relation over an edge set. -/
def AntiSymEdges (E : Finset GEdge) : Prop :=
  ∀ a b, (⟨a, b, .antireq, none⟩ : GEdge) ∈ E → (⟨b, a, .antireq, none⟩ : GEdge) ∈ E

/-- The `REQUIRES`/`UNLOCKS` inverse pairing over a graph state. -/
def ReqUnlInv (st : GraphSt) : Prop :=
  ∀ s d (g : Option String),
    (⟨s, d, .requires, g⟩ : GEdge) ∈ st.edges ↔ (⟨d, s, .unlocks, g⟩ : GEdge) ∈ st.edges

/-- Mutation sequences in which `merge_antireq_edge` calls occur in
adjacent symmetric pairs — the shape the bootstrap's ingestion loop
produces (lines 87-90). -/
inductive PairedOps : List AdapterOp → Prop
  | nil : PairedOps []
  | upsert (id code title : String) (level : Option Int) (ops : List AdapterOp) :
      PairedOps ops → PairedOps (.upsertNode id code title level :: ops)
  | prereq (t f g : String) (ops : List AdapterOp) :
      PairedOps ops → PairedOps (.mergePrereq t f g :: ops)
  | anti (a b : String) (ops : List AdapterOp) :
      PairedOps ops → PairedOps (.mergeAntireq a b :: .mergeAntireq b a :: ops)

/-! ## Constraint rows (`_rows_for_constraints`, `add_constraints`) -/

/-- A `course_constraint` row as produced by `_rows_for_constraints`:
`(course_id, kind, target_course_id, group_id)` with `group_id = None`
on `ANTIREQ` rows. -/
structure CRow where
  course_id : String
  kind : String
  target : String
  group_id : Option String
deriving DecidableEq, Repr

/-- A row as inserted by `add_constraints` (`group_id` normalized
`None -> ''`, so the uniqueness key is total). -/
structure CRowDb where
  course_id : String
  kind : String
  target : String
  group_id : String
deriving DecidableEq, Repr

/-- `add_constraints` row normalization: `"group_id": g or ""`. -/
def toDbRow (r : CRow) : CRowDb := ⟨r.course_id, r.kind, r.target, r.group_id.getD ""⟩

/-- The PREREQ rows for the groups of one course, 1-based counter `n`. -/
def prereqRows (cid : String) : Nat → List (List String) → List CRow
  | _, [] => []
  | n, g :: gs =>
    g.map (fun code => ⟨cid, "PREREQ", idFromCode code, some (gidStr cid n)⟩) ++
      prereqRows cid (n + 1) gs

/-- `_rows_for_constraints`. -/
def rowsForConstraints (cid : String) (req : String) : List CRow :=
  let parsed := extractConstraints req
  prereqRows cid 1 parsed.prereq_groups ++
    parsed.antireqs.map (fun code => ⟨cid, "ANTIREQ", idFromCode code, none⟩)

/-! ## Traversal result processing (`collect_graph_for_id`) -/

/-- A node dict of a Cypher result row
(`{id: x.id, code: x.code, title: x.title, level: x.level}`; any field
may be null). -/
structure NodeRow where
  id : Option String
  code : Option String
  title : Option String
  level : Option Int
deriving DecidableEq, Repr

/-- An output node (`nodes_map[nid]`): keyed by a non-empty id. -/
structure PNode where
  id : String
  code : Option String
  title : Option String
  level : Option Int
deriving DecidableEq, Repr

/-- An output link
(`{start: ..., end: ..., type: ..., group_id: ...}`). -/
structure PLink where
  start : Option String
  stop : Option String
  type : Option String
  group_id : Option String
deriving DecidableEq, Repr

/-- One record of the path query: the node list and relationship list
of one path (`nds`, `rls`). -/
structure RecRow where
  nds : List NodeRow
  rls : List PLink
deriving DecidableEq, Repr

/-- The dict `{"nodes": ..., "links": ...}` returned by the traversal
and aggregation functions. -/
structure GraphResult where
  nodes : List PNode
  links : List PLink
deriving DecidableEq, Repr

/-- Python-dict upsert keyed by `.id`: overwrite in place or append. -/
def nodeUpsert (acc : List PNode) (n : PNode) : List PNode :=
  if acc.any (fun m => m.id = n.id) then acc.map (fun m => if m.id = n.id then n else m)
  else acc ++ [n]

/-- `nodes_map[nid] = {...}` for one node dict, skipping falsy ids
(`if nid:`). -/
def procNode (acc : List PNode) (n : NodeRow) : List PNode :=
  match n.id with
  | none => acc
  | some i => if i = "" then acc else nodeUpsert acc ⟨i, n.code, n.title, n.level⟩

/-- The `seen`-set link dedup loop (key = the whole
`(start, end, type, group_id)` tuple, which is the entire link). -/
def dedupLinksAux (seen : List PLink) : List PLink → List PLink
  | [] => []
  | l :: ls => if l ∈ seen then dedupLinksAux seen ls else l :: dedupLinksAux (l :: seen) ls

def dedupLinks (ls : List PLink) : List PLink := dedupLinksAux [] ls

/-- The record-processing loop of `collect_graph_for_id` (lines
144-174): build `nodes_map`, concatenate links, dedup links. -/
def processRecords (recs : List RecRow) : GraphResult :=
  let nodes := recs.foldl (fun acc rec => rec.nds.foldl procNode acc) []
  let links := recs.foldl (fun acc rec => acc ++ rec.rls) []
  ⟨nodes, dedupLinks links⟩

/-- Line 119: `rel = "REQUIRES" if rel_type.upper() == "REQUIRES" else
"UNLOCKS"`. -/
def relOf (rel_type : String) : String :=
  if pyUpper rel_type = "REQUIRES" then "REQUIRES" else "UNLOCKS"

/-- `collect_graph_for_id`.  The backend is a function from the
relationship type interpolated into the Cypher query to the outcome of
running it: an exception, or the full path-record stream in backend
order (the query's `LIMIT 200` keeps the first 200 records of that
stream).  A `none` driver models `get_neo4j()` returning `None`. -/
def collectGraphForId (driver : Option Unit) (rel_type : String)
    (backend : String → Except Unit (List RecRow)) : GraphResult :=
  match driver with
  | none => ⟨[], []⟩
  | some _ =>
    match backend (relOf rel_type) with
    | .error _ => ⟨[], []⟩
    | .ok recs => processRecords (recs.take 200)

/-! ## Aggregation (`courses_by_plans`, lines 257-274) -/

/-- The aggregation loop: one traversal per start id, nodes unioned
into a dict keyed by id (last write wins), links concatenated and
deduplicated by the full tuple.  `sub` is the per-start-id traversal
result. -/
def aggregateByPlans (sub : String → GraphResult) (ids : List String) : GraphResult :=
  let nodes := ids.foldl (fun acc i => (sub i).nodes.foldl nodeUpsert acc) []
  let links := ids.foldl (fun acc i => acc ++ (sub i).links) []
  ⟨nodes, dedupLinks links⟩

/-! ## Concrete inputs used by the theorems -/

/-- The parser-scenario input of spec §8. -/
def scenarioInput : String := "Prereq: CS 135; one of MATH 135, MATH 137. Antireq: CS 145"

/-- A path record whose only content is a node with id `A`. -/
def recNodeA : RecRow := ⟨[⟨some "A", some "A", some "A", none⟩], []⟩

/-- A path record whose only content is a node with id `B`. -/
def recNodeB : RecRow := ⟨[⟨some "B", some "B", some "B", none⟩], []⟩

/-- 201 backend records: 200 copies of the `A` record, then the `B`
record. -/
def capStreamA : List RecRow := List.replicate 200 recNodeA ++ [recNodeB]

/-- The same multiset of records with `B` first. -/
def capStreamB : List RecRow := recNodeB :: List.replicate 200 recNodeA

/-- A concrete per-start-id traversal outcome used to witness the
aggregation property. -/
def subW : String → GraphResult := fun i =>
  if i = "A" then
    ⟨[⟨"A", some "A", none, none⟩], [⟨some "A", some "B", some "REQUIRES", some "A#g1"⟩]⟩
  else ⟨[⟨"B", some "B", none, none⟩], []⟩

/-! ## Theorems -/

/-! ### Supporting lemmas for the AND splitter -/

theorem segmentsSpec_ne_nil (d : Nat) (ts : List String) : segmentsSpec d ts ≠ [] := by
  cases ts with
  | nil => simp [segmentsSpec]
  | cons t ts =>
    simp only [segmentsSpec]
    split
    · simp
    · split <;> simp

theorem finalizeSegs_cons (buf : List String) (rest : List (List String)) (h : rest ≠ []) :
    finalizeSegs (buf :: rest) = pyStrip (joinSp buf) :: finalizeSegs rest := by
  obtain ⟨s, rest, rfl⟩ := List.exists_cons_of_ne_nil h
  simp only [finalizeSegs, List.map_cons, List.getLast?_cons_cons]
  by_cases hc : (s :: rest).getLast? = some ([] : List String)
  · rw [if_pos hc, if_pos hc, List.dropLast_cons_of_ne_nil (by simp)]
  · rw [if_neg hc, if_neg hc]

theorem splitAnd_fold_segments :
    ∀ (toks out buf : List String) (d : Nat),
      splitAndFinish (toks.foldl splitAndLoop (out, buf, d)) =
        out ++ finalizeSegs (consFirst buf (segmentsSpec d toks)) := by
  intro toks
  induction toks with
  | nil =>
    intro out buf d
    simp only [List.foldl_nil, splitAndFinish, segmentsSpec, consFirst, List.append_nil]
    by_cases hb : buf = []
    · subst hb; simp [finalizeSegs]
    · rw [if_neg (by simpa [List.isEmpty_iff] using hb)]
      simp [finalizeSegs, hb]
  | cons t ts ih =>
    intro out buf d
    rw [List.foldl_cons]
    by_cases h : isAndSep (parenStep d t) t
    · have hl : splitAndLoop (out, buf, d) t =
          (out ++ [pyStrip (joinSp buf)], [], parenStep d t) := by
        simp [splitAndLoop, h]
      rw [hl, ih]
      have hs : segmentsSpec d (t :: ts) = [] :: segmentsSpec (parenStep d t) ts := by
        simp [segmentsSpec, h]
      rw [hs]
      obtain ⟨s, rest, hsr⟩ :=
        List.exists_cons_of_ne_nil (segmentsSpec_ne_nil (parenStep d t) ts)
      rw [hsr]
      simp only [consFirst, List.nil_append, List.append_nil]
      rw [finalizeSegs_cons buf (s :: rest) (by simp)]
      simp [List.append_assoc]
    · have hl : splitAndLoop (out, buf, d) t = (out, buf ++ [t], parenStep d t) := by
        simp [splitAndLoop, h]
      rw [hl, ih]
      obtain ⟨s, rest, hsr⟩ :=
        List.exists_cons_of_ne_nil (segmentsSpec_ne_nil (parenStep d t) ts)
      have hs : segmentsSpec d (t :: ts) = (t :: s) :: rest := by
        simp only [segmentsSpec, if_neg h]
        rw [hsr]
      rw [hs, hsr]
      simp only [consFirst]
      rw [← List.append_cons]

/-! ### Supporting lemmas for the parser -/

theorem length_insSorted (x : String) (l : List String) :
    (insSorted x l).length = l.length + 1 := by
  induction l with
  | nil => rfl
  | cons y ys ih =>
    simp only [insSorted]
    split
    · simp
    · simp [ih]

theorem length_sortStr (l : List String) : (sortStr l).length = l.length := by
  unfold sortStr
  induction l with
  | nil => rfl
  | cons x xs ih => rw [List.foldr_cons, length_insSorted, ih, List.length_cons]

theorem pySortedSet_eq_nil (xs : List String) : pySortedSet xs = [] ↔ xs = [] := by
  constructor
  · intro h
    cases xs with
    | nil => rfl
    | cons x rest =>
      exfalso
      have hlen : (pySortedSet (x :: rest)).length = 0 := by rw [h]; rfl
      rw [pySortedSet, length_sortStr] at hlen
      simp [dedupKeepFirst, dedupSeen] at hlen
  · rintro rfl; rfl

theorem extractConstraints_groups (rd : String) :
    (extractConstraints rd).prereq_groups =
      if preSpanOf (pyStrip rd) = "" then []
      else
        (splitAndTopLevel (preSpanOf (pyStrip rd))).filterMap (fun part =>
          let codes := pySortedSet (partCodes part)
          if codes = [] then none else some codes) := rfl

theorem extractConstraints_antireqs (rd : String) :
    (extractConstraints rd).antireqs = pySortedSet (codesIn (antiSpanOf (pyStrip rd))) := rfl

theorem parserCodes_def (rd : String) :
    parserCodes rd =
      (if preSpanOf (pyStrip rd) = "" then []
       else (splitAndTopLevel (preSpanOf (pyStrip rd))).flatMap partCodes) ++
        codesIn (antiSpanOf (pyStrip rd)) := rfl

theorem partOpt_none_iff (part : String) :
    ((let codes := pySortedSet (partCodes part)
      if codes = [] then none else some codes) = (none : Option (List String))) ↔
      partCodes part = [] := by
  show (if pySortedSet (partCodes part) = [] then (none : Option (List String))
        else some (pySortedSet (partCodes part))) = none ↔ partCodes part = []
  by_cases h : pySortedSet (partCodes part) = []
  · rw [if_pos h]
    exact iff_of_true rfl ((pySortedSet_eq_nil _).mp h)
  · rw [if_neg h]
    exact iff_of_false (by simp) (fun hc => h (by rw [hc]; rfl))

/-! ### Supporting lemmas for the graph invariants -/

theorem reqUnl_applyOp (st : GraphSt) (op : AdapterOp) (h : ReqUnlInv st) :
    ReqUnlInv (applyOp st op) := by
  cases op with
  | upsertNode id code title level => simpa [ReqUnlInv, applyOp] using h
  | mergePrereq t f g0 =>
    intro s d g
    have hsd := h s d g
    simp only [applyOp, Finset.mem_insert]
    constructor
    · rintro (he | he | hm)
      · exact absurd he (by simp)
      · injection he with h1 h2 h3 h4
        subst h1; subst h2; subst h4
        exact Or.inl rfl
      · exact Or.inr (Or.inr (hsd.mp hm))
    · rintro (he | he | hm)
      · injection he with h1 h2 h3 h4
        subst h1; subst h2; subst h4
        exact Or.inr (Or.inl rfl)
      · exact absurd he (by simp)
      · exact Or.inr (Or.inr (hsd.mpr hm))
  | mergeAntireq a b =>
    intro s d g
    have hsd := h s d g
    simp only [applyOp, Finset.mem_insert]
    constructor
    · rintro (he | hm)
      · exact absurd he (by simp)
      · exact Or.inr (hsd.mp hm)
    · rintro (he | hm)
      · exact absurd he (by simp)
      · exact Or.inr (hsd.mpr hm)

theorem reqUnl_foldl (ops : List AdapterOp) :
    ∀ st : GraphSt, ReqUnlInv st → ReqUnlInv (ops.foldl applyOp st) := by
  induction ops with
  | nil => intro st h; simpa using h
  | cons op ops ih =>
    intro st h
    rw [List.foldl_cons]
    exact ih _ (reqUnl_applyOp st op h)

theorem antiSym_applyOp_nonAnti (st : GraphSt) (op : AdapterOp)
    (hop : ∀ a b, op ≠ .mergeAntireq a b) (h : AntiSymEdges st.edges) :
    AntiSymEdges (applyOp st op).edges := by
  cases op with
  | upsertNode id code title level => simpa [applyOp] using h
  | mergePrereq t f g0 =>
    intro a b hm
    simp only [applyOp, Finset.mem_insert] at hm ⊢
    rcases hm with he | he | hm
    · exact absurd he (by simp)
    · exact absurd he (by simp)
    · exact Or.inr (Or.inr (h a b hm))
  | mergeAntireq x y => exact absurd rfl (hop x y)

theorem antiSym_anti_pair (st : GraphSt) (a b : String) (h : AntiSymEdges st.edges) :
    AntiSymEdges (applyOp (applyOp st (.mergeAntireq a b)) (.mergeAntireq b a)).edges := by
  intro u v hm
  simp only [applyOp, Finset.mem_insert] at hm ⊢
  rcases hm with he | he | hm
  · injection he with h1 h2 h3 h4
    subst h1; subst h2
    exact Or.inr (Or.inl rfl)
  · injection he with h1 h2 h3 h4
    subst h1; subst h2
    exact Or.inl rfl
  · exact Or.inr (Or.inr (h u v hm))

theorem antiSym_foldl_paired :
    ∀ (ops : List AdapterOp), PairedOps ops →
      ∀ st : GraphSt, AntiSymEdges st.edges → AntiSymEdges ((ops.foldl applyOp st).edges) := by
  intro ops hp
  induction hp with
  | nil => intro st h; simpa using h
  | upsert id code title level ops _ ih =>
    intro st h
    rw [List.foldl_cons]
    exact ih _ (antiSym_applyOp_nonAnti st _ (by intro a b hne; cases hne) h)
  | prereq t f g ops _ ih =>
    intro st h
    rw [List.foldl_cons]
    exact ih _ (antiSym_applyOp_nonAnti st _ (by intro a b hne; cases hne) h)
  | anti a b ops _ ih =>
    intro st h
    rw [List.foldl_cons, List.foldl_cons]
    exact ih _ (antiSym_anti_pair st a b h)

theorem paired_append {xs ys : List AdapterOp} (hx : PairedOps xs) (hy : PairedOps ys) :
    PairedOps (xs ++ ys) := by
  induction hx with
  | nil => simpa using hy
  | upsert id code title level ops _ ih => exact PairedOps.upsert _ _ _ _ _ ih
  | prereq t f g ops _ ih => exact PairedOps.prereq _ _ _ _ ih
  | anti a b ops _ ih => exact PairedOps.anti _ _ _ ih

theorem paired_of_no_anti :
    ∀ ops : List AdapterOp, (∀ op ∈ ops, ∀ a b, op ≠ .mergeAntireq a b) → PairedOps ops := by
  intro ops
  induction ops with
  | nil => intro _; exact PairedOps.nil
  | cons op ops ih =>
    intro h
    have hops := ih (fun o ho => h o (List.mem_cons_of_mem op ho))
    have hhead := h op (List.mem_cons_self op ops)
    cases op with
    | upsertNode id code title level => exact PairedOps.upsert _ _ _ _ _ hops
    | mergePrereq t f g => exact PairedOps.prereq _ _ _ _ hops
    | mergeAntireq a b => exact absurd rfl (hhead a b)

theorem paired_prereqOpsFor (cid : String) :
    ∀ (gs : List (List String)) (n : Nat), PairedOps (prereqOpsFor cid n gs) := by
  intro gs
  induction gs with
  | nil => intro n; exact PairedOps.nil
  | cons g gs ih =>
    intro n
    refine paired_append (paired_of_no_anti _ ?_) (ih (n + 1))
    intro op hop a b
    obtain ⟨code, -, rfl⟩ := List.mem_map.mp hop
    intro hne; cases hne

theorem paired_antireqOpsFor (cid : String) (codes : List String) :
    PairedOps (antireqOpsFor cid codes) := by
  induction codes with
  | nil => exact PairedOps.nil
  | cons c cs ih => exact PairedOps.anti _ _ _ ih

theorem paired_bootstrapOps (records : List RawRecord) :
    PairedOps (bootstrapOps records) := by
  refine paired_append (paired_of_no_anti _ ?_) ?_
  · intro op hop a b
    obtain ⟨r, -, rfl⟩ := List.mem_map.mp hop
    intro hne; cases hne
  · induction records with
    | nil => exact PairedOps.nil
    | cons r rs ih =>
      rw [List.flatMap_cons]
      exact paired_append
        (paired_append (paired_prereqOpsFor _ _ _) (paired_antireqOpsFor _ _)) ih

/-! ### Supporting lemmas for the constraint rows -/

theorem mem_prereqRows (cid : String) :
    ∀ (gs : List (List String)) (n : Nat) (row : CRow),
      row ∈ prereqRows cid n gs ↔
        ∃ i g code, gs.get? i = some g ∧ code ∈ g ∧
          row = ⟨cid, "PREREQ", idFromCode code, some (gidStr cid (n + i))⟩ := by
  intro gs
  induction gs with
  | nil =>
    intro n row
    simp [prereqRows]
  | cons g gs ih =>
    intro n row
    simp only [prereqRows, List.mem_append, List.mem_map, ih]
    constructor
    · rintro (⟨code, hc, rfl⟩ | ⟨i, g2, code, hg, hc, rfl⟩)
      · exact ⟨0, g, code, rfl, hc, by rw [Nat.add_zero]⟩
      · refine ⟨i + 1, g2, code, by simpa using hg, hc, ?_⟩
        have : n + 1 + i = n + (i + 1) := by omega
        rw [this]
    · rintro ⟨i, g2, code, hg, hc, rfl⟩
      cases i with
      | zero =>
        left
        refine ⟨code, ?_, by rw [Nat.add_zero]⟩
        have hgg : g = g2 := by simpa using hg
        rw [hgg]
        exact hc
      | succ i =>
        right
        refine ⟨i, g2, code, by simpa using hg, hc, ?_⟩
        have : n + (i + 1) = n + 1 + i := by omega
        rw [this]

theorem mem_prereqOpsFor (cid : String) :
    ∀ (gs : List (List String)) (n : Nat) (op : AdapterOp),
      op ∈ prereqOpsFor cid n gs ↔
        ∃ i g code, gs.get? i = some g ∧ code ∈ g ∧
          op = .mergePrereq cid (idFromCode code) (gidStr cid (n + i)) := by
  intro gs
  induction gs with
  | nil =>
    intro n op
    simp [prereqOpsFor]
  | cons g gs ih =>
    intro n op
    simp only [prereqOpsFor, List.mem_append, List.mem_map, ih]
    constructor
    · rintro (⟨code, hc, rfl⟩ | ⟨i, g2, code, hg, hc, rfl⟩)
      · exact ⟨0, g, code, rfl, hc, by rw [Nat.add_zero]⟩
      · refine ⟨i + 1, g2, code, by simpa using hg, hc, ?_⟩
        have : n + 1 + i = n + (i + 1) := by omega
        rw [this]
    · rintro ⟨i, g2, code, hg, hc, rfl⟩
      cases i with
      | zero =>
        left
        refine ⟨code, ?_, by rw [Nat.add_zero]⟩
        have hgg : g = g2 := by simpa using hg
        rw [hgg]
        exact hc
      | succ i =>
        right
        refine ⟨i, g2, code, by simpa using hg, hc, ?_⟩
        have : n + (i + 1) = n + 1 + i := by omega
        rw [this]

/-! ### Supporting lemmas for the aggregation -/

theorem nodeUpsert_mem (acc : List PNode) (n : PNode)
    (hc : ∀ v ∈ acc, v.id = n.id → v = n) :
    ∀ x, x ∈ nodeUpsert acc n ↔ x ∈ acc ∨ x = n := by
  intro x
  unfold nodeUpsert
  by_cases h : acc.any (fun m => m.id = n.id)
  · rw [if_pos h]
    obtain ⟨m, hm, hmid⟩ := List.any_eq_true.mp h
    have hmn : m = n := hc m hm (of_decide_eq_true hmid)
    have hmap : acc.map (fun m => if m.id = n.id then n else m) = acc := by
      rw [List.map_congr_left (g := id), List.map_id]
      intro a ha
      by_cases hid : a.id = n.id
      · rw [if_pos hid]; exact (hc a ha hid).symm
      · rw [if_neg hid]; rfl
    rw [hmap]
    constructor
    · exact Or.inl
    · rintro (hx | rfl)
      · exact hx
      · exact hmn ▸ hm
  · rw [if_neg h]
    simp [List.mem_append]

theorem foldl_nodeUpsert_mem :
    ∀ (L acc : List PNode),
      (∀ v w, v ∈ acc ++ L → w ∈ acc ++ L → v.id = w.id → v = w) →
      ∀ x, x ∈ L.foldl nodeUpsert acc ↔ x ∈ acc ∨ x ∈ L := by
  intro L
  induction L with
  | nil =>
    intro acc _ x
    simp
  | cons n L ih =>
    intro acc h x
    rw [List.foldl_cons]
    have hnmem : n ∈ acc ++ n :: L := List.mem_append_right _ (List.mem_cons_self n L)
    have hc : ∀ v ∈ acc, v.id = n.id → v = n := fun v hv hid =>
      h v n (List.mem_append_left _ hv) hnmem hid
    have htrans : ∀ y, y ∈ nodeUpsert acc n ++ L → y ∈ acc ++ n :: L := by
      intro y hy
      rcases List.mem_append.mp hy with hy | hy
      · rcases (nodeUpsert_mem acc n hc y).mp hy with hy | rfl
        · exact List.mem_append_left _ hy
        · exact hnmem
      · exact List.mem_append_right _ (List.mem_cons_of_mem n hy)
    have h2 : ∀ v w, v ∈ nodeUpsert acc n ++ L → w ∈ nodeUpsert acc n ++ L →
        v.id = w.id → v = w := fun v w hv hw => h v w (htrans v hv) (htrans w hw)
    rw [ih (nodeUpsert acc n) h2 x, nodeUpsert_mem acc n hc x]
    simp only [List.mem_cons]
    tauto

theorem aggregate_nodes_def (sub : String → GraphResult) (ids : List String) :
    (aggregateByPlans sub ids).nodes =
      ids.foldl (fun acc i => (sub i).nodes.foldl nodeUpsert acc) [] := rfl

theorem aggregate_links_def (sub : String → GraphResult) (ids : List String) :
    (aggregateByPlans sub ids).links =
      dedupLinks (ids.foldl (fun acc i => acc ++ (sub i).links) []) := rfl

theorem aggregate_nodes_flat (sub : String → GraphResult) :
    ∀ (ids : List String) (acc : List PNode),
      ids.foldl (fun acc i => (sub i).nodes.foldl nodeUpsert acc) acc =
        (ids.flatMap fun i => (sub i).nodes).foldl nodeUpsert acc := by
  intro ids
  induction ids with
  | nil => intro acc; rfl
  | cons i ids ih =>
    intro acc
    rw [List.foldl_cons, ih, List.flatMap_cons, List.foldl_append]

theorem aggregate_links_flat (sub : String → GraphResult) :
    ∀ (ids : List String) (acc : List PLink),
      ids.foldl (fun acc i => acc ++ (sub i).links) acc =
        acc ++ (ids.flatMap fun i => (sub i).links) := by
  intro ids
  induction ids with
  | nil => intro acc; simp
  | cons i ids ih =>
    intro acc
    rw [List.foldl_cons, ih, List.flatMap_cons, List.append_assoc]

theorem mem_dedupLinksAux (x : PLink) :
    ∀ (L seen : List PLink), x ∈ dedupLinksAux seen L ↔ x ∈ L ∧ x ∉ seen := by
  intro L
  induction L with
  | nil =>
    intro seen
    simp [dedupLinksAux]
  | cons l ls ih =>
    intro seen
    simp only [dedupLinksAux]
    by_cases hl : l ∈ seen
    · rw [if_pos hl, ih]
      simp only [List.mem_cons]
      constructor
      · rintro ⟨hx, hs⟩
        exact ⟨Or.inr hx, hs⟩
      · rintro ⟨hx | hx, hs⟩
        · subst hx; exact absurd hl hs
        · exact ⟨hx, hs⟩
    · rw [if_neg hl]
      simp only [List.mem_cons, ih]
      constructor
      · rintro (rfl | ⟨hx, hs⟩)
        · exact ⟨Or.inl rfl, hl⟩
        · exact ⟨Or.inr hx, fun hxx => hs (Or.inr hxx)⟩
      · rintro ⟨hx | hx, hs⟩
        · exact Or.inl hx
        · by_cases hxl : x = l
          · exact Or.inl hxl
          · refine Or.inr ⟨hx, fun hxx => ?_⟩
            rcases hxx with h1 | h2
            · exact hxl h1
            · exact hs h2

theorem mem_dedupLinks (x : PLink) (L : List PLink) : x ∈ dedupLinks L ↔ x ∈ L := by
  rw [dedupLinks, mem_dedupLinksAux]
  simp

/-! ### Concrete inputs used by the theorems -/

/-- Claim C1: the spec's parser scenario asserts
`extract_constraints "Prereq: CS 135; one of MATH 135, MATH 137. Antireq: CS 145"`
returns `prereq_groups = [["CS 135"], ["MATH 135","MATH 137"]]` and
`antireqs = ["CS 145"]`.  The code refutes it: the semicolon and the
phrase "one of" are not AND separators (`_split_and_top_level` only
splits on the word "and"), so all three codes land in a single
OR-group. -/
theorem extract_constraints_scenario_refuted :
    ¬ ((extractConstraints scenarioInput).prereq_groups =
          [["CS 135"], ["MATH 135", "MATH 137"]] ∧
       (extractConstraints scenarioInput).antireqs = ["CS 145"]) := by
  decide

/-- Claim C1 (amended): on the scenario input the parser returns the
single OR-group `["CS 135", "MATH 135", "MATH 137"]` (sorted union of
all codes of the prerequisite span) and `antireqs = ["CS 145"]`. -/
theorem extract_constraints_scenario_actual :
    extractConstraints scenarioInput =
      ⟨[["CS 135", "MATH 135", "MATH 137"]], ["CS 145"]⟩ := by
  decide

/-- Claim C3: the claim says `collect_graph_for_id` returns an explicit
failure value distinct from the empty-graph success result when the
backend cannot answer.  Counterexample: the no-driver return value and
the raising-backend return value both equal the empty-graph success
result `{"nodes": [], "links": []}` — the same value, not a distinct
one. -/
theorem collect_graph_failure_equals_empty_success :
    collectGraphForId none "REQUIRES" (fun _ => .ok [recNodeA]) =
        collectGraphForId (some ()) "REQUIRES" (fun _ => .ok []) ∧
      collectGraphForId (some ()) "REQUIRES" (fun _ => .error ()) =
        collectGraphForId (some ()) "REQUIRES" (fun _ => .ok []) :=
  ⟨rfl, rfl⟩

/-- Claim C3 (amended): when the backend cannot answer (driver absent,
or the query raises), `collect_graph_for_id` returns the empty graph
`{"nodes": [], "links": []}` — the same value as an empty-graph
success, so the return value alone cannot distinguish the two; callers
(the HTTP layer) must check the driver themselves. -/
theorem collect_graph_failure_yields_empty_graph :
    ∀ (rt : String) (bk : String → Except Unit (List RecRow)),
      collectGraphForId none rt bk = ⟨[], []⟩ ∧
      (bk (relOf rt) = .error () → collectGraphForId (some ()) rt bk = ⟨[], []⟩) ∧
      collectGraphForId (some ()) rt (fun _ => .ok []) = ⟨[], []⟩ := by
  intro rt bk
  refine ⟨rfl, fun h => ?_, rfl⟩
  simp [collectGraphForId, h]

/-- Witness for `collect_graph_failure_yields_empty_graph` at a
raising backend. -/
theorem collect_graph_failure_yields_empty_graph_witness :
    collectGraphForId (some ()) "REQUIRES"
        (fun _ => (.error () : Except Unit (List RecRow))) = ⟨[], []⟩ :=
  (collect_graph_failure_yields_empty_graph "REQUIRES" (fun _ => .error ())).2.1 rfl

/-- Claim C5: the claim says the result-size cap truncates
deterministically, lowest node id first.  Counterexample: two backend
record streams that are permutations of the same 201 records (`LIMIT
200` is exceeded) produce different results — which nodes survive
depends on the backend's record order, not on node ids (there is no
`ORDER BY` in the query). -/
theorem collect_graph_truncation_order_dependent :
    capStreamA.Perm capStreamB ∧
      collectGraphForId (some ()) "REQUIRES" (fun _ => .ok capStreamA) ≠
        collectGraphForId (some ()) "REQUIRES" (fun _ => .ok capStreamB) := by
  constructor
  · show (List.replicate 200 recNodeA ++ [recNodeB]).Perm (recNodeB :: List.replicate 200 recNodeA)
    exact List.perm_append_comm
  · decide

/-- Claim C5 (amended): when the backend returns more than 200 path
records, `collect_graph_for_id` truncates rather than failing: records
beyond the first 200 in backend order are ignored, so the surviving
nodes/links are a function of the backend's record order. -/
theorem collect_graph_truncation_ignores_tail :
    ∀ (recs rest : List RecRow) (rt : String),
      recs.length = 200 →
      collectGraphForId (some ()) rt (fun _ => .ok (recs ++ rest)) =
        collectGraphForId (some ()) rt (fun _ => .ok recs) := by
  intro recs rest rt h
  have h1 : (recs ++ rest).take 200 = recs := by
    rw [← h]; exact List.take_left recs rest
  have h2 : recs.take 200 = recs := List.take_of_length_le (le_of_eq h)
  simp only [collectGraphForId, h1, h2]

/-- Witness for `collect_graph_truncation_ignores_tail` on a concrete
201-record stream. -/
theorem collect_graph_truncation_ignores_tail_witness :
    collectGraphForId (some ()) "REQUIRES" (fun _ => .ok capStreamA) =
      collectGraphForId (some ()) "REQUIRES" (fun _ => .ok (List.replicate 200 recNodeA)) :=
  collect_graph_truncation_ignores_tail (List.replicate 200 recNodeA) [recNodeB]
    "REQUIRES" (List.length_replicate 200 recNodeA)

/-- Claim C10: every `rel_type` whose upper-cased form is not exactly
`"REQUIRES"` (including `"ANTIREQ"` and arbitrary strings) makes
`collect_graph_for_id` silently traverse `UNLOCKS`; no `rel_type` value
is rejected and none produces an `ANTIREQ` traversal. -/
theorem rel_type_defaults_to_unlocks :
    ∀ rt : String,
      (pyUpper rt ≠ "REQUIRES" →
        relOf rt = "UNLOCKS" ∧
          ∀ (d : Unit) (bk : String → Except Unit (List RecRow)),
            collectGraphForId (some d) rt bk = collectGraphForId (some d) "UNLOCKS" bk) ∧
      (relOf rt = "REQUIRES" ∨ relOf rt = "UNLOCKS") ∧ relOf rt ≠ "ANTIREQ" := by
  intro rt
  by_cases h : pyUpper rt = "REQUIRES"
  · refine ⟨fun hc => absurd h hc, ?_, ?_⟩
    · left; simp [relOf, h]
    · simp [relOf, h]
  · have hrt : relOf rt = "UNLOCKS" := by simp [relOf, h]
    have hu : relOf "UNLOCKS" = "UNLOCKS" := by decide
    refine ⟨fun _ => ⟨hrt, fun d bk => ?_⟩, Or.inr hrt, by simp [hrt]⟩
    simp only [collectGraphForId, hrt, hu]

/-- Witness for `rel_type_defaults_to_unlocks` at `rel_type =
"ANTIREQ"`. -/
theorem rel_type_defaults_to_unlocks_witness :
    relOf "ANTIREQ" = "UNLOCKS" :=
  (((rel_type_defaults_to_unlocks "ANTIREQ").1 (by decide)).1)

/-- Claim C2: `_split_and_top_level` equals the reference segmentation
that cuts the token stream exactly at the tokens `isAndSep` marks: a
whitespace-delimited token lowercasing to "and" taken at paren depth
zero, where the depth is updated per token by `parenStep` (a standalone
`"("` token increments it, a standalone `")"` decrements it, floored at
0).  In particular an "and" token strictly inside a parenthesized group
(depth positive) is never a split point — it stays inside its
segment. -/
theorem split_and_never_splits_in_parens :
    ∀ s : String, splitAndTopLevel s = finalizeSegs (segmentsSpec 0 (pySplitWs s)) := by
  intro s
  have h := splitAnd_fold_segments (pySplitWs s) [] [] 0
  obtain ⟨seg, rest, hsr⟩ :=
    List.exists_cons_of_ne_nil (segmentsSpec_ne_nil 0 (pySplitWs s))
  rw [hsr] at h ⊢
  simpa [consFirst] using h

/-- Claim C4: in every graph state reachable from the empty database by
any sequence of the adapter's mutations, a `REQUIRES(to, from,
group_id)` relationship exists iff the `UNLOCKS(from, to, group_id)`
relationship exists: `merge_prereq_edge` is the only mutation that
touches either type and creates the two together in one Cypher
statement (and `MERGE` keeps relationships unique, so "exists" is
"exists exactly once"). -/
theorem requires_unlocks_inverse_invariant :
    ∀ (ops : List AdapterOp) (s d : String) (g : Option String),
      (⟨s, d, .requires, g⟩ : GEdge) ∈ (runOps ops).edges ↔
        (⟨d, s, .unlocks, g⟩ : GEdge) ∈ (runOps ops).edges := by
  intro ops
  exact reqUnl_foldl ops initSt (by intro s d g; simp [initSt])

/-- Claim C8: in every graph state produced by the bootstrap's
ingestion (`bootstrap_from_parsed_records`), the `ANTIREQ` relation is
symmetric: the ingestion loop issues `merge_antireq_edge(a, b)` and
`merge_antireq_edge(b, a)` together for every parsed antirequisite. -/
theorem antireq_symmetry_invariant :
    ∀ (records : List RawRecord) (a b : String),
      (⟨a, b, .antireq, none⟩ : GEdge) ∈ (bootstrapGraph records).edges ↔
        (⟨b, a, .antireq, none⟩ : GEdge) ∈ (bootstrapGraph records).edges := by
  intro records a b
  have hsym : AntiSymEdges (bootstrapGraph records).edges :=
    antiSym_foldl_paired (bootstrapOps records) (paired_bootstrapOps records) initSt
      (by intro a b hm; simp [initSt] at hm)
  exact ⟨hsym a b, hsym b a⟩

/-- Claim C7: `extract_constraints` never raises — the embedding is a
total function, and every code path of the source (absent labels,
empty spans, prose without codes) lands in one of the cases below.
An input on which the case-insensitive "Prereq:" search fails yields
`prereq_groups = []`, and the constraint set is empty (no OR-groups
and no antireqs) exactly when the parser recognizes no course code
anywhere in the input: none in any AND part of the prerequisite span
and none in the antirequisite span. -/
theorem extract_constraints_degrades :
    ∀ rd : String,
      (spanAfterLabel "prereq:" ["antireq:", "coreq:"] (pyStrip rd) = none →
        (extractConstraints rd).prereq_groups = []) ∧
      (((extractConstraints rd).prereq_groups = [] ∧ (extractConstraints rd).antireqs = []) ↔
        parserCodes rd = []) := by
  intro rd
  constructor
  · intro h
    have hpre : preSpanOf (pyStrip rd) = "" := by unfold preSpanOf; rw [h]
    rw [extractConstraints_groups, if_pos hpre]
  · rw [extractConstraints_groups, extractConstraints_antireqs, parserCodes_def]
    by_cases hp : preSpanOf (pyStrip rd) = ""
    · rw [if_pos hp, if_pos hp]
      simp [pySortedSet_eq_nil]
    · rw [if_neg hp, if_neg hp, List.append_eq_nil, List.filterMap_eq_nil_iff,
        List.flatMap_eq_nil_iff, pySortedSet_eq_nil]
      constructor
      · rintro ⟨h1, h2⟩
        exact ⟨fun p hp2 => (partOpt_none_iff p).mp (h1 p hp2), h2⟩
      · rintro ⟨h1, h2⟩
        exact ⟨fun p hp2 => (partOpt_none_iff p).mpr (h1 p hp2), h2⟩

/-- Witness for `extract_constraints_degrades`: a label-free input
yields no prerequisite groups. -/
theorem extract_constraints_degrades_witness :
    (extractConstraints "Not open to students in Engineering.").prereq_groups = [] :=
  (extract_constraints_degrades "Not open to students in Engineering.").1 (by decide)

/-- Claim C9: every row `_rows_for_constraints` emits is either a
PREREQ row whose `group_id` is exactly `"<course_id>#g<n>"` for the
1-based position `n` of its OR-group in the parsed `prereq_groups`, or
an ANTIREQ row with `group_id = None`; every (group, code) pair does
yield its PREREQ row; `add_constraints` normalizes an absent `group_id`
to `""` (making the uniqueness key total); and every prerequisite edge
the bootstrap merges carries the same `"<course_id>#g<n>"` group id. -/
theorem constraint_rows_group_id :
    ∀ cid req : String,
      (∀ row ∈ rowsForConstraints cid req,
        (∃ i g code, (extractConstraints req).prereq_groups.get? i = some g ∧ code ∈ g ∧
          row = ⟨cid, "PREREQ", idFromCode code, some (cid ++ "#g" ++ toString (i + 1))⟩) ∨
        (∃ code ∈ (extractConstraints req).antireqs,
          row = ⟨cid, "ANTIREQ", idFromCode code, none⟩)) ∧
      (∀ i g code, (extractConstraints req).prereq_groups.get? i = some g → code ∈ g →
        (⟨cid, "PREREQ", idFromCode code, some (cid ++ "#g" ++ toString (i + 1))⟩ : CRow) ∈
          rowsForConstraints cid req) ∧
      (∀ row ∈ rowsForConstraints cid req, row.group_id = none →
        (toDbRow row).group_id = "") ∧
      (∀ (records : List RawRecord) (t f g : String),
        (AdapterOp.mergePrereq t f g) ∈ bootstrapOps records →
        ∃ r ∈ records, ∃ i grp code,
          (extractConstraints (nreq r)).prereq_groups.get? i = some grp ∧ code ∈ grp ∧
          t = nid r ∧ f = idFromCode code ∧ g = nid r ++ "#g" ++ toString (i + 1)) := by
  intro cid req
  refine ⟨?_, ?_, ?_, ?_⟩
  · intro row hrow
    rcases List.mem_append.mp hrow with hrow | hrow
    · left
      obtain ⟨i, g, code, hg, hc, rfl⟩ := (mem_prereqRows cid _ 1 row).mp hrow
      exact ⟨i, g, code, hg, hc, by simp [gidStr, Nat.add_comm 1 i]⟩
    · right
      obtain ⟨code, hc, rfl⟩ := List.mem_map.mp hrow
      exact ⟨code, hc, rfl⟩
  · intro i g code hg hc
    apply List.mem_append_left
    rw [mem_prereqRows]
    exact ⟨i, g, code, hg, hc, by simp [gidStr, Nat.add_comm 1 i]⟩
  · intro row _ hnone
    simp [toDbRow, hnone]
  · intro records t f g hmem
    rcases List.mem_append.mp hmem with hmem | hmem
    · obtain ⟨r, _, heq⟩ := List.mem_map.mp hmem
      cases heq
    · obtain ⟨r, hr, hop⟩ := List.mem_flatMap.mp hmem
      have hop' : AdapterOp.mergePrereq t f g ∈
          prereqOpsFor (nid r) 1 (extractConstraints (nreq r)).prereq_groups ++
            antireqOpsFor (nid r) (extractConstraints (nreq r)).antireqs := hop
      rcases List.mem_append.mp hop' with hop2 | hop2
      · obtain ⟨i, grp, code, hg, hc, heq⟩ := (mem_prereqOpsFor _ _ 1 _).mp hop2
        injection heq with h1 h2 h3
        refine ⟨r, hr, i, grp, code, hg, hc, h1, h2, ?_⟩
        rw [h3]
        simp [gidStr, Nat.add_comm 1 i]
      · exfalso
        obtain ⟨code, _, hin⟩ := List.mem_flatMap.mp hop2
        simp [List.mem_cons] at hin

/-- Witness for `constraint_rows_group_id`: the course `CS-246` with
requirement text `"Prereq: CS 135"` yields the PREREQ row targeting
`CS-135` with group id `CS-246#g1`. -/
theorem constraint_rows_group_id_witness :
    (⟨"CS-246", "PREREQ", idFromCode "CS 135",
        some ("CS-246" ++ "#g" ++ toString (0 + 1))⟩ : CRow) ∈
      rowsForConstraints "CS-246" "Prereq: CS 135" :=
  (constraint_rows_group_id "CS-246" "Prereq: CS 135").2.1 0 ["CS 135"] "CS 135"
    (by decide) (by decide)

/-- Claim C6: aggregation over a set of start ids (one traversal per
id, nodes unioned keyed by id with last-write-wins, links concatenated
and deduplicated by the full `(start, end, type, group_id)` tuple)
yields the same node set and link set for any iteration order of the
start ids, provided nodes with equal ids carry equal attributes across
the per-id results (they all come from the same underlying graph —
the spec's own proviso for last-write-wins); and an empty start-id
list yields the empty result, not an error. -/
theorem aggregate_order_independent :
    ∀ sub : String → GraphResult,
      aggregateByPlans sub [] = ⟨[], []⟩ ∧
      ∀ ids1 ids2 : List String,
        ids1.Perm ids2 →
        (∀ i ∈ ids1, ∀ j ∈ ids1, ∀ n ∈ (sub i).nodes, ∀ m ∈ (sub j).nodes,
          n.id = m.id → n = m) →
        (∀ x, x ∈ (aggregateByPlans sub ids1).nodes ↔
          x ∈ (aggregateByPlans sub ids2).nodes) ∧
        (∀ l, l ∈ (aggregateByPlans sub ids1).links ↔
          l ∈ (aggregateByPlans sub ids2).links) := by
  intro sub
  refine ⟨rfl, ?_⟩
  intro ids1 ids2 hperm hcons
  have hcons2 : ∀ i ∈ ids2, ∀ j ∈ ids2, ∀ n ∈ (sub i).nodes, ∀ m ∈ (sub j).nodes,
      n.id = m.id → n = m := fun i hi j hj =>
    hcons i (hperm.mem_iff.mpr hi) j (hperm.mem_iff.mpr hj)
  have key : ∀ ids : List String,
      (∀ i ∈ ids, ∀ j ∈ ids, ∀ n ∈ (sub i).nodes, ∀ m ∈ (sub j).nodes,
        n.id = m.id → n = m) →
      ∀ x, x ∈ (aggregateByPlans sub ids).nodes ↔ ∃ i ∈ ids, x ∈ (sub i).nodes := by
    intro ids hc x
    rw [aggregate_nodes_def, aggregate_nodes_flat]
    have hfc : ∀ v w, v ∈ ([] : List PNode) ++ (ids.flatMap fun i => (sub i).nodes) →
        w ∈ ([] : List PNode) ++ (ids.flatMap fun i => (sub i).nodes) →
        v.id = w.id → v = w := by
      intro v w hv hw
      simp only [List.nil_append, List.mem_flatMap] at hv hw
      obtain ⟨i, hi, hvi⟩ := hv
      obtain ⟨j, hj, hwj⟩ := hw
      exact hc i hi j hj v hvi w hwj
    rw [foldl_nodeUpsert_mem _ [] hfc x]
    simp [List.mem_flatMap]
  constructor
  · intro x
    rw [key ids1 hcons x, key ids2 hcons2 x]
    constructor
    · rintro ⟨i, hi, hx⟩; exact ⟨i, hperm.mem_iff.mp hi, hx⟩
    · rintro ⟨i, hi, hx⟩; exact ⟨i, hperm.mem_iff.mpr hi, hx⟩
  · intro l
    rw [aggregate_links_def, aggregate_links_def, mem_dedupLinks, mem_dedupLinks,
      aggregate_links_flat, aggregate_links_flat]
    simp only [List.nil_append, List.mem_flatMap]
    constructor
    · rintro ⟨i, hi, hl⟩; exact ⟨i, hperm.mem_iff.mp hi, hl⟩
    · rintro ⟨i, hi, hl⟩; exact ⟨i, hperm.mem_iff.mpr hi, hl⟩

/-- Witness for `aggregate_order_independent`: concrete per-id results
aggregated over `["A", "B"]` and `["B", "A"]` agree on membership of
the `A` node. -/
theorem aggregate_order_independent_witness :
    (⟨"A", some "A", none, none⟩ : PNode) ∈ (aggregateByPlans subW ["A", "B"]).nodes ↔
      (⟨"A", some "A", none, none⟩ : PNode) ∈ (aggregateByPlans subW ["B", "A"]).nodes :=
  (((aggregate_order_independent subW).2 ["A", "B"] ["B", "A"]
      (by decide) (by decide)).1 ⟨"A", some "A", none, none⟩)

end GradUWate
